import Mathlib

/-!
Formal model of the `rbx-products` reconciliation engine.

This file shallowly embeds the core of the Rust sources (`src/sync/products.rs`,
`src/sync/download.rs`, `src/sync/upload.rs`, `src/api/middleware.rs`,
`src/api/products.rs`, `src/api/model.rs`, `src/utils.rs`) as executable Lean
definitions, and proves/refutes the specification's claims about them.

Modelling conventions:
* machine integers are `Nat`/`Int`; `as u64` casts are modelled explicitly
  (`wrapU64` for wrapping integer casts, `satU64` for the saturating
  float-to-integer cast);
* IEEE-754 `f64` arithmetic is modelled exactly: every basic operation of the
  source (`int as f64`, `/`, `-`, `*`) is correctly rounded, so each step is
  `flQ` (round to nearest, ties to even, 53-bit significand) applied to the
  exact rational result.  Overflow and subnormals cannot arise for the ranges
  produced by `get_price` (|values| are 0 or between 2^-7 and 2^63), so the
  model omits them.  Rationals are kept as unnormalised integer fractions
  (`Q2`) with positive denominators so that everything reduces in the kernel;
* `HashMap` collections are modelled as association lists with `HashMap`
  insert/find semantics (iteration order is a modelling choice; no settled
  property depends on it);
* fallible code (a Rust `unwrap` that can panic) is modelled with `Except`;
* a name-filter regex is modelled extensionally by its
  `Regex::replace_all(s, " ")` action on strings (`FilterAction`);
  `litFilter pat` is the action of a pattern without regex metacharacters
  (leftmost, non-overlapping literal matching — exactly what the `regex`
  crate does for such patterns).
-/

set_option maxRecDepth 1000000

/-! ## Exact binary64 arithmetic model -/

/-- Unnormalised rational number; all constructions below keep `d > 0`. -/
structure Q2 where
  n : ℤ
  d : ℤ
deriving DecidableEq

/-- Number of binary digits of `n` (0 for 0), computed with structural fuel so
that the kernel can evaluate it. -/
def bitLenAux : ℕ → ℕ → ℕ
  | 0, _ => 0
  | fuel+1, n => if n = 0 then 0 else bitLenAux fuel (n / 2) + 1

/-- Bit length of a natural number. -/
def bitLen (n : ℕ) : ℕ := bitLenAux n n

/-- Round the rational `n / d` (with `d > 0`) to the nearest integer, ties to
even — the IEEE-754 default rounding. -/
def rneQ (n d : ℤ) : ℤ :=
  let f := Int.fdiv n d
  let r2 := 2 * (n - f * d)
  if r2 < d then f else if d < r2 then f + 1 else if f % 2 = 0 then f else f + 1

/-- Integer power `2 ^ k`. -/
def pow2 (k : ℕ) : ℤ := (2 : ℤ) ^ k

/-- Binade exponent of the positive rational `n / d`: the `e` with
`2 ^ e ≤ n / d < 2 ^ (e + 1)`. -/
def qlog2 (n d : ℤ) : ℤ :=
  let a : ℤ := bitLen n.toNat
  let b : ℤ := bitLen d.toNat
  let e0 := a - b
  let ge : Bool := if 0 ≤ e0 then d * pow2 e0.toNat ≤ n else d ≤ n * pow2 (-e0).toNat
  if ge then e0 else e0 - 1

/-- Round a positive rational `n / d` (`n, d > 0`) to the nearest binary64
value: 53 significant bits, round to nearest, ties to even. -/
def flPos (n d : ℤ) : Q2 :=
  let s : ℤ := qlog2 n d - 52
  let m := if 0 ≤ s then rneQ n (d * pow2 s.toNat) else rneQ (n * pow2 (-s).toNat) d
  if 0 ≤ s then ⟨m * pow2 s.toNat, 1⟩ else ⟨m, pow2 (-s).toNat⟩

/-- Round an exact rational to the nearest binary64 value (no
overflow/subnormal handling; see the header note). -/
def flQ (x : Q2) : Q2 :=
  if x.n = 0 then ⟨0, 1⟩
  else if 0 < x.n then flPos x.n x.d
  else
    let r := flPos (-x.n) x.d
    ⟨-r.n, r.d⟩

/-- Exact difference of two `Q2` fractions. -/
def q2sub (x y : Q2) : Q2 := ⟨x.n * y.d - y.n * x.d, x.d * y.d⟩

/-- Exact product of two `Q2` fractions. -/
def q2mul (x y : Q2) : Q2 := ⟨x.n * y.n, x.d * y.d⟩

/-- Floor of a `Q2` fraction (denominator positive). -/
def q2floor (x : Q2) : ℤ := Int.fdiv x.n x.d

/-- Rust `as u64` on an integer value: wrapping (two's-complement) cast. -/
def wrapU64 (i : ℤ) : ℕ := (i % (2 : ℤ) ^ 64).toNat

/-- Rust `f64 as u64`: saturating cast of an (integral, non-NaN) float. -/
def satU64 (i : ℤ) : ℕ :=
  if i < 0 then 0 else if (2 : ℤ) ^ 64 - 1 < i then ((2 : ℤ) ^ 64 - 1).toNat else i.toNat

/-- The specification's exact effective-price formula
`floor(price * (1 - discount / 100))`, written over the integers
(`Int.fdiv` is floor division).  Modelled from the spec, for comparison with
the source's floating-point computation. -/
def spec_effective_price (price : ℤ) (discount : ℕ) : ℤ :=
  Int.fdiv (price * (100 - (discount : ℤ))) 100

/-! ## String utilities (`src/utils.rs`) -/

/-- The `replace_all` action of one name filter on a string
(`Regex::replace_all(s, " ")` in the source). -/
def FilterAction := String → String

/-- Leftmost, non-overlapping replacement of the literal pattern `pat` by
`rep`, on character lists, with structural fuel (one character is consumed per
step).  This is the `regex` crate's `replace_all` semantics for a pattern with
no metacharacters. -/
def replaceAllAux (pat rep : List Char) : ℕ → List Char → List Char
  | 0, s => s
  | _, [] => []
  | fuel+1, c :: rest =>
    if List.isPrefixOf pat (c :: rest) then
      rep ++ replaceAllAux pat rep fuel (List.drop pat.length (c :: rest))
    else c :: replaceAllAux pat rep fuel rest

/-- The filter action of a literal (metacharacter-free) pattern: replace each
occurrence with a single space, leftmost first, non-overlapping. -/
def litFilter (pat : String) : FilterAction := fun s =>
  if pat.toList = [] then s
  else (replaceAllAux pat.toList [' '] s.toList.length s.toList).asString

/-- Collapse every whitespace run to a single space (the source's
`WS.replace_all(&out, " ")` with `WS = \s+`).  The flag records whether the
previous character was whitespace. -/
def collapseAux : Bool → List Char → List Char
  | _, [] => []
  | prevWS, c :: rest =>
    if c.isWhitespace then
      if prevWS then collapseAux true rest else ' ' :: collapseAux true rest
    else c :: collapseAux false rest

/-- Remove trailing whitespace. -/
def dropTrailingWS : List Char → List Char
  | [] => []
  | c :: rest =>
    match dropTrailingWS rest with
    | [] => if c.isWhitespace then [] else [c]
    | d :: ds => c :: d :: ds

/-- Whitespace-collapse and trim, on character lists: the final step of
`canonical_name`. -/
def trimCollapseList (l : List Char) : List Char :=
  dropTrailingWS (List.dropWhile Char.isWhitespace (collapseAux false l))

/-- Apply the filter actions left to right. -/
def applyFilters (fs : List FilterAction) (s : String) : String :=
  fs.foldl (fun acc f => f acc) s

/-- The effective filter list of `canonical_name`: the user-supplied list when
present and non-empty, the built-in `DEFAULT_FILTERS` otherwise.  The built-in
list is passed in as `defaults`: the source's `DEFAULT_FILTERS` are three
regexes whose exact actions no settled property depends on, so the development
quantifies over them. -/
def effFilters (filters : Option (List FilterAction)) (defaults : List FilterAction) :
    List FilterAction :=
  match filters with
  | some l => if l.length = 0 then defaults else l
  | none => defaults

/-- Model of `canonical_name` from `src/utils.rs`: apply every filter's
replace-with-space action in order, then collapse whitespace runs to one space
and trim. -/
def canonical_name (filters : Option (List FilterAction)) (defaults : List FilterAction)
    (s : String) : String :=
  (trimCollapseList (applyFilters (effFilters filters defaults) s).toList).asString

/-- Model of `format_name` from `src/utils.rs` (slugification): lowercase, strip
non-alphanumeric non-whitespace characters, trim, then replace whitespace with
hyphens.  ASCII-faithful (`is_ascii_alphanumeric` in the source; Lean's
`Char.toLower`/`Char.isWhitespace` agree with Rust on the ASCII range). -/
def format_name (s : String) : String :=
  let l := (s.toList.map Char.toLower).filter fun c => c.isAlphanum || c.isWhitespace
  let l := dropTrailingWS (List.dropWhile Char.isWhitespace l)
  (l.map fun c => if c.isWhitespace then '-' else c).asString

/-- Model of `is_censored` from `src/utils.rs`: every character is `'#'` or
whitespace. -/
def is_censored (s : String) : Bool :=
  s.toList.all fun c => c = '#' || c.isWhitespace

/-! ## Data model (`src/sync/products.rs`, `src/api/model.rs`) -/

/-- The `metadata` section of the catalog.  The source's `discount_prefix`
field (the discount title template) is named `discount_tpl` here. -/
structure Metadata where
  universe_id : ℕ
  luau_file : Option String
  discount_tpl : Option String
  name_filters : Option (List FilterAction)

/-- A local catalog product.  The source's `prefix` field (an optional display
title marker) is named `pfx` here; `price` is an `i64`, `discount` a `u8`. -/
structure Product where
  id : Option ℕ
  name : String
  pfx : Option String
  description : Option String
  active : Bool
  discount : Option ℕ
  price : ℤ
  regional_pricing : Option Bool
deriving DecidableEq

/-- The full local catalog (`VCSProducts`): metadata plus two keyed product
collections. -/
structure VCSProducts where
  metadata : Metadata
  gamepasses : List (String × Product)
  products : List (String × Product)

/-- The two product kinds.  The Rust `derive(Ord)` order is declaration order:
`GamePass < DevProduct`. -/
inductive ProductType
  | GamePass
  | DevProduct
deriving DecidableEq

/-- A fetched remote record already converted to a `Product`, tagged with its
kind. -/
inductive MultiProduct
  | GamePass (p : Product)
  | DevProduct (p : Product)
deriving DecidableEq

/-- Comparison `Ord::cmp` of the derived `ProductType` ordering. -/
def ProductType.cmp : ProductType → ProductType → Ordering
  | .GamePass, .GamePass => .eq
  | .GamePass, .DevProduct => .lt
  | .DevProduct, .GamePass => .gt
  | .DevProduct, .DevProduct => .eq

/-- One field-level comparison payload (`ProductDiff` in `src/ui/diffs.rs`,
with the `RegionalPricing` variant that `src/sync/products.rs` uses). -/
inductive ProductDiff
  | Title (old new : String)
  | Description (old new : String)
  | Price (old new : ℕ)
  | RegionalPricing (old new : Bool)
  | Active (old new : Bool)
deriving DecidableEq

/-- A field comparison tagged with its outcome (`DiffChange`). -/
inductive DiffChange
  | Unchanged (d : ProductDiff)
  | Changed (d : ProductDiff)
  | Created (d : ProductDiff)
deriving DecidableEq

/-- The diff of one matched product (`ProductDiffs`). -/
structure ProductDiffs where
  name : String
  id : ℕ
  diffs : List DiffChange
deriving DecidableEq

/-- The five compared fields, for stating field-order properties. -/
inductive DiffField
  | title
  | description
  | price
  | regionalPricing
  | active
deriving DecidableEq

/-- The field a comparison payload talks about. -/
def ProductDiff.field : ProductDiff → DiffField
  | .Title _ _ => .title
  | .Description _ _ => .description
  | .Price _ _ => .price
  | .RegionalPricing _ _ => .regionalPricing
  | .Active _ _ => .active

/-- The field of a tagged comparison. -/
def DiffChange.field : DiffChange → DiffField
  | .Unchanged d => ProductDiff.field d
  | .Changed d => ProductDiff.field d
  | .Created d => ProductDiff.field d

/-- Whether a comparison is tagged `Changed` (the `has_diffs` predicate of the
source matches on exactly this). -/
def DiffChange.isChanged : DiffChange → Bool
  | .Changed _ => true
  | _ => false

/-! ## Product operations (`src/sync/products.rs`) -/

/-- Model of `Product::has_discount`: a discount is present and positive. -/
def Product.has_discount (p : Product) : Bool :=
  match p.discount with
  | some d => decide (0 < d)
  | none => false

/-- Model of `Product::get_price`: with an active discount the price is computed in
`f64` as `(price as f64 * (1.0 - (discount as f64 / 100.0))).floor() as u64`;
every step is modelled by the correctly rounded binary64 operation on exact
rationals (`flQ`), the final `.floor()` is exact in `f64`, and `as u64`
saturates.  Without an active discount the result is `price as u64`
(a wrapping cast). -/
def Product.get_price (p : Product) : ℕ :=
  match p.discount with
  | some d =>
    if 0 < d then
      let c := flQ ⟨(d : ℤ), 100⟩
      let e := flQ (q2sub ⟨1, 1⟩ c)
      let a := flQ ⟨p.price, 1⟩
      let m := flQ (q2mul a e)
      satU64 (q2floor m)
    else wrapU64 p.price
  | none => wrapU64 p.price

/-- Model of `Product::get_title`: the raw name if a discount is active, otherwise the
`pfx`-concatenated name when a `pfx` is set. -/
def Product.get_title (p : Product) : String :=
  if p.has_discount then p.name
  else
    match p.pfx with
    | some px => px ++ " " ++ p.name
    | none => p.name

/-- The `dyn_fmt` `format` call of `Product::diff`: replace each `{}`
placeholder, left to right, by the next argument's decimal representation
(an exhausted argument list yields the empty string).  The crate's escape
sequences and positional placeholders are not used by this code base. -/
def dynFormatAux : List Char → List ℕ → List Char
  | [], _ => []
  | '{' :: '}' :: rest, a :: args => (Nat.repr a).toList ++ dynFormatAux rest args
  | '{' :: '}' :: rest, [] => dynFormatAux rest []
  | c :: rest, args => c :: dynFormatAux rest args

/-- String-level wrapper for `dynFormatAux`. -/
def dynFormat (tpl : String) (args : List ℕ) : String :=
  (dynFormatAux tpl.toList args).asString

/-- The effective title computed at the top of `Product::diff` (lines
211–219): when metadata is supplied and both `self.discount` and the
metadata's discount template are set, the formatted template is prepended to
`get_title()`; otherwise the title is `get_title()`. -/
def Product.diffTitle (self : Product) (metadata : Option Metadata) : String :=
  match metadata with
  | some md =>
    match self.discount, md.discount_tpl with
    | some d, some tpl => dynFormat tpl [d] ++ " " ++ self.get_title
    | _, _ => self.get_title
  | none => self.get_title

/-- The `check_diff!` macro: tag the pair as `Changed` when the values differ
and `Unchanged` otherwise. -/
def check_diff {α : Type} [DecidableEq α] (mk : α → α → ProductDiff) (old new : α) :
    DiffChange :=
  if old ≠ new then .Changed (mk old new) else .Unchanged (mk old new)

/-- Model of `Product::diff(self, other, metadata)`: compare the five fields in the
fixed order title, description, price, regional-pricing, active; return
`none` when nothing changed.  The source unconditionally unwraps
`other.description`; a missing remote description is the `Except.error`
case. -/
def Product.diff (self other : Product) (metadata : Option Metadata) :
    Except Unit (Option ProductDiffs) :=
  match other.description with
  | none => .error ()
  | some odesc =>
    let title := self.diffTitle metadata
    let active := self.active
    let price := self.get_price
    let description := self.description.getD ""
    let diffs : List DiffChange :=
      [check_diff .Title other.name title,
       check_diff .Description odesc description,
       check_diff .Price (wrapU64 other.price) price,
       check_diff .RegionalPricing (other.regional_pricing.getD false)
         (self.regional_pricing.getD false),
       check_diff .Active other.active active]
    let has_diffs := diffs.any (·.isChanged)
    if has_diffs then .ok (some ⟨self.name, self.id.getD 0, diffs⟩) else .ok none

/-! ## Remote records and conversion (`src/api/model.rs`) -/

/-- Nested price information of a remote record. -/
structure PriceInformation where
  default_price_in_robux : ℕ
  enabled_features : Option (List String)
deriving DecidableEq

/-- A remote game pass record. -/
structure GamePass where
  game_pass_id : ℕ
  name : String
  description : String
  is_for_sale : Bool
  icon_asset_id : ℕ
  created_timestamp : String
  updated_timestamp : String
  price_information : Option PriceInformation
deriving DecidableEq

/-- A remote developer-product record. -/
structure DevProduct where
  product_id : ℕ
  name : String
  description : String
  universe_id : ℕ
  is_for_sale : Bool
  store_page_enabled : Bool
  price_information : Option PriceInformation
  is_immutable : Bool
  created_timestamp : String
  updated_timestamp : String
deriving DecidableEq

/-- Conversion `impl From<&GamePass> for Product`. -/
def Product.ofGamePass (gp : GamePass) : Product :=
  let features := gp.price_information.bind fun pi => pi.enabled_features
  { discount := none
    pfx := none
    id := some gp.game_pass_id
    name := gp.name
    description := some gp.description
    active := gp.is_for_sale
    price := (gp.price_information.map fun pi => (pi.default_price_in_robux : ℤ)).getD 0
    regional_pricing := features.map fun f => f.any fun i => i = "RegionalPricing" }

/-- Conversion `impl From<&DevProduct> for Product`. -/
def Product.ofDevProduct (dp : DevProduct) : Product :=
  let features := dp.price_information.bind fun pi => pi.enabled_features
  { discount := none
    pfx := none
    id := some dp.product_id
    name := dp.name
    description := some dp.description
    active := dp.is_for_sale
    price := (dp.price_information.map fun pi => (pi.default_price_in_robux : ℤ)).getD 0
    regional_pricing := features.map fun f => f.any fun i => i = "RegionalPricing" }

/-! ## Rate-limit middleware (`src/api/middleware.rs`) -/

/-- The observable part of an HTTP response for the middleware: status code
plus the two backoff headers, kept as raw strings. -/
structure SimResponse where
  status : ℕ
  retry_after : Option String
  x_ratelimit_reset : Option String
deriving DecidableEq

/-- Rust `str::trim()`: remove leading and trailing whitespace. -/
def strTrim (s : String) : String :=
  (dropTrailingWS (s.toList.dropWhile Char.isWhitespace)).asString

/-- Accumulate decimal digits; any non-digit fails the parse. -/
def digitsToNatAux : ℕ → List Char → Option ℕ
  | acc, [] => some acc
  | acc, c :: rest =>
    if c.isDigit then digitsToNatAux (acc * 10 + (c.toNat - '0'.toNat)) rest else none

/-- Rust `str::parse::<u64>()`: optional leading `+`, then one or more ASCII
digits, value below `2 ^ 64`. -/
def parseU64 (s : String) : Option ℕ :=
  let t :=
    match s.toList with
    | '+' :: rest => rest
    | l => l
  match t with
  | [] => none
  | _ =>
    match digitsToNatAux 0 t with
    | some n => if n < 2 ^ 64 then some n else none
    | none => none

/-- Model of `retry_wait_from_headers`: seconds from `retry-after`, else from
`x-ratelimit-reset`, defaulting to 1 (each header value is trimmed before
parsing). -/
def retry_wait_from_headers (r : SimResponse) : ℕ :=
  (match r.retry_after.bind fun v => parseU64 (strTrim v) with
   | some n => some n
   | none => r.x_ratelimit_reset.bind fun v => parseU64 (strTrim v)).getD 1

/-- Observable middleware events: issuing the request of a given attempt, and
sleeping for a number of milliseconds. -/
inductive MwEvent
  | request (attempt : ℕ)
  | sleep (ms : ℕ)
deriving DecidableEq

/-- The retry loop of `Middleware::handle` for `RobloxRateLimitMiddleware`,
iterating over the attempt indices of `for attempt in 0..=max_429_retries`:
run the request; return any non-429 response at once; return the 429 when
`attempt >= max_429_retries`; otherwise sleep for the header wait plus the
cushion and retry with the cloned request (an uncloneable request returns the
429 after the sleep).  `server i` is the response to the `i`-th issued
request, `cloneable i` whether `try_clone` succeeded on that attempt; `none`
models the `unreachable!()` after the loop. -/
def handleList (maxRetries cushion_ms : ℕ) (server : ℕ → SimResponse)
    (cloneable : ℕ → Bool) : List ℕ → Option (List MwEvent × SimResponse)
  | [] => none
  | attempt :: rest =>
    let resp := server attempt
    if resp.status ≠ 429 then some ([.request attempt], resp)
    else if maxRetries ≤ attempt then some ([.request attempt], resp)
    else
      let wait := retry_wait_from_headers resp
      let evs := [MwEvent.request attempt, MwEvent.sleep (wait * 1000 + cushion_ms)]
      if cloneable attempt then
        match handleList maxRetries cushion_ms server cloneable rest with
        | some (evs2, r) => some (evs ++ evs2, r)
        | none => none
      else some (evs, resp)

/-- Model of `Middleware::handle`: the loop over attempts `0..=max_429_retries`. -/
def handle (maxRetries cushion_ms : ℕ) (server : ℕ → SimResponse)
    (cloneable : ℕ → Bool) : Option (List MwEvent × SimResponse) :=
  handleList maxRetries cushion_ms server cloneable (List.range (maxRetries + 1))

/-! ## Paginated fetch (`src/api/products.rs`) -/

/-- One page of a cursor-paginated listing (`DevProductPage` /
`GamePassPage`). -/
structure Page (α : Type) where
  items : List α
  next_page_token : Option String
deriving DecidableEq

/-- The pagination loop shared by `fetch_all_dev_products` and
`fetch_all_gamepasses`: the cursor starts as the empty string; a request
carries the `pageToken` parameter exactly when the cursor is non-empty; items
accumulate in order; a `some` next-token replaces the cursor, a `none` token
ends the loop.  The trace records the cursor parameter of every issued
request; `none` as the result models non-termination within the given
fuel. -/
def fetchAllAux {α : Type} (server : Option String → Page α) :
    String → List α → List (Option String) → ℕ → List (Option String) × Option (List α)
  | _, _, trace, 0 => (trace, none)
  | cursor, acc, trace, fuel+1 =>
    let param := if cursor = "" then none else some cursor
    let page := server param
    let acc2 := acc ++ page.items
    let trace2 := trace ++ [param]
    match page.next_page_token with
    | some c => fetchAllAux server c acc2 trace2 fuel
    | none => (trace2, some acc2)

/-- Run the pagination loop from its initial state. -/
def fetch_all {α : Type} (server : Option String → Page α) (fuel : ℕ) :
    List (Option String) × Option (List α) :=
  fetchAllAux server "" [] [] fuel

/-! ## Download merge (`src/sync/download.rs`) -/

/-- Operation `HashMap::insert` on the association-list model: replace the value of an
existing key, otherwise append the new entry. -/
def alInsert (key : String) (v : Product) (l : List (String × Product)) :
    List (String × Product) :=
  if l.any fun e => e.1 = key then
    l.map fun e => if e.1 = key then (key, v) else e
  else l ++ [(key, v)]

/-- The `Product` literal built at lines 67–109 of `src/sync/download.rs`:
the per-field overwrite rules.  `existing` is the matched local entry (key and
product), `product` the remote record already converted to a `Product`. -/
def mergeBase (overwrite : Bool) (filters : Option (List FilterAction))
    (defaults : List FilterAction) (existing : Option (String × Product))
    (product : Product) : Product :=
  { id := product.id
    name :=
      match overwrite, existing with
      | false, some e => canonical_name filters defaults e.2.name
      | _, _ => canonical_name filters defaults product.name
    pfx :=
      match overwrite, existing with
      | false, some e => e.2.pfx
      | _, _ => none
    description :=
      match overwrite, existing with
      | false, some e => e.2.description
      | _, _ => product.description
    active := product.active
    discount :=
      match existing with
      | some e => if e.2.has_discount then e.2.discount else none
      | none => none
    price :=
      match existing with
      | some e => if overwrite then product.price else e.2.price
      | none => product.price
    regional_pricing :=
      match existing with
      | some e => if overwrite then product.regional_pricing else e.2.regional_pricing
      | none => product.regional_pricing }

/-- Lines 111–115 of `src/sync/download.rs`: a `regional_pricing` of
`Some(false)` is normalised to `None`. -/
def normalizeRegional (p : Product) : Product :=
  if p.regional_pricing = some false then { p with regional_pricing := none } else p

/-- Lines 117–123 of `src/sync/download.rs`: without the overwrite flag, a
censored merged description is replaced by the existing local one. -/
def censorGuard (overwrite : Bool) (existing : Option (String × Product))
    (p : Product) : Product :=
  match overwrite, existing with
  | false, some e =>
    match p.description with
    | some desc => if is_censored desc then { p with description := e.2.description } else p
    | none => p
  | _, _ => p

/-- The product value built by one iteration of the download merge loop
(lines 67–123 of `src/sync/download.rs`): the per-field overwrite rules,
followed by the `regional_pricing == Some(false)` normalisation and the
censored-description guard. -/
def mergedProduct (overwrite : Bool) (filters : Option (List FilterAction))
    (defaults : List FilterAction) (existing : Option (String × Product))
    (product : Product) : Product :=
  censorGuard overwrite existing
    (normalizeRegional (mergeBase overwrite filters defaults existing product))

/-- One iteration of the download merge loop: find the matching local entry by
remote id (absent ids compare as `-1`), build the merged product, and insert
it under the existing key (or a freshly slugified one). -/
def mergeOne (overwrite : Bool) (filters : Option (List FilterAction))
    (defaults : List FilterAction) (st : VCSProducts) (mp : MultiProduct) : VCSProducts :=
  let pt : Product × ProductType :=
    match mp with
    | .GamePass p => (p, .GamePass)
    | .DevProduct p => (p, .DevProduct)
  let product := pt.1
  let name := format_name (canonical_name filters defaults product.name)
  let matchId : String × Product → Bool := fun x =>
    ((x.2.id.map fun i => (i : ℤ)).getD (-1)) = ((product.id.map fun i => (i : ℤ)).getD (-1))
  let existing :=
    match pt.2 with
    | .GamePass => st.gamepasses.find? matchId
    | .DevProduct => st.products.find? matchId
  let merged := mergedProduct overwrite filters defaults existing product
  let key :=
    match existing with
    | none => name
    | some e => e.1
  match pt.2 with
  | .GamePass => { st with gamepasses := alInsert key merged st.gamepasses }
  | .DevProduct => { st with products := alInsert key merged st.products }

/-- Merge phase of `Downloader::download`: fold every fetched remote record
into the local catalog, with the name filters captured from the catalog's
metadata. -/
def download (overwrite : Bool) (defaults : List FilterAction) (st : VCSProducts)
    (remotes : List MultiProduct) : VCSProducts :=
  remotes.foldl (mergeOne overwrite st.metadata.name_filters defaults) st

/-! ## Upload modification ordering (`src/sync/upload.rs`) -/

/-- Rust `u64::cmp`. -/
def natCmp (m n : ℕ) : Ordering :=
  if m < n then .lt else if m = n then .eq else .gt

/-- The comparator of `upload_modified`'s `all_diffs.sort_by` (lines 219–222):
the product-type comparison is reversed (`b.0.cmp(&a.0)`), ties broken by
ascending id. -/
def uploadCmp (a b : ProductType × ProductDiffs) : Ordering :=
  match ProductType.cmp b.1 a.1 with
  | .eq => natCmp a.2.id b.2.id
  | o => o

/-- Model of `all_diffs.sort_by(...)`: a comparator sort; `sort_by` guarantees a
permutation ordered by the comparator. -/
def sortDiffs (l : List (ProductType × ProductDiffs)) : List (ProductType × ProductDiffs) :=
  l.mergeSort fun a b => uploadCmp a b ≠ Ordering.gt

/-- Rank giving the sort's kind order: one-time (developer) products first. -/
def ptRank : ProductType → ℕ
  | .DevProduct => 0
  | .GamePass => 1

/-! ## Normalisation predicates for canonicalisation proofs -/

/-- No two consecutive whitespace characters. -/
def noWSrun : List Char → Bool
  | [] => true
  | [_] => true
  | a :: b :: rest => (!(a.isWhitespace && b.isWhitespace)) && noWSrun (b :: rest)

/-- Every whitespace character is a plain space. -/
def wsOnlySpace : List Char → Bool
  | [] => true
  | c :: rest => (!c.isWhitespace || c = ' ') && wsOnlySpace rest

/-- The first character, if any, is not whitespace. -/
def headNotWS : List Char → Bool
  | [] => true
  | c :: _ => !c.isWhitespace

/-- The last character, if any, is not whitespace. -/
def lastNotWS : List Char → Bool
  | [] => true
  | [c] => !c.isWhitespace
  | _ :: c :: rest => lastNotWS (c :: rest)

/-! ## Concrete inputs used by witnesses and counterexamples -/

/-- A local product already in sync with its remote pair. -/
def c1self : Product := ⟨some 3, "Item", none, some "d", true, none, 5, none⟩

/-- The matching remote product (converted), identical in every compared
field. -/
def c1other : Product := ⟨some 3, "Item", none, some "d", true, none, 5, none⟩

/-- A product priced 90 with a 30% discount. -/
def c2product : Product := ⟨some 1, "gadget", none, some "g", true, some 30, 90, none⟩

/-- Catalog metadata with a discount title template. -/
def c3md : Metadata := ⟨1, none, some "SALE {}%", none⟩

/-- A local product with an active 50% discount. -/
def c3self : Product := ⟨some 1, "VIP", none, some "d", true, some 50, 100, none⟩

/-- Its remote pair, already carrying the discounted price. -/
def c3other : Product := ⟨some 1, "VIP", none, some "d", true, none, 50, none⟩

/-- The diff the source computes for `c3self` against `c3other`: only the
title differs, because the discount template is applied during diffing. -/
def c3diff : ProductDiffs :=
  ⟨"VIP", 1,
   [.Changed (.Title "VIP" "SALE 50% VIP"),
    .Unchanged (.Description "d" "d"),
    .Unchanged (.Price 50 50),
    .Unchanged (.RegionalPricing false false),
    .Unchanged (.Active true true)]⟩

/-- An existing local product with a real description. -/
def c4old : Product := ⟨some 1, "vip", none, some "hello", true, none, 100, none⟩

/-- Its remote record whose description was redacted by the platform. -/
def c4remoteP : Product := ⟨some 1, "vip", none, some "###", true, none, 100, none⟩

/-- A catalog holding `c4old` (user filters set, so the built-in default
filters are never consulted). -/
def c4cat : VCSProducts := ⟨⟨1, none, none, some [litFilter "zz"]⟩, [("vip", c4old)], []⟩

/-- A server that answers every request with 429 and `retry-after: 2`. -/
def c5server : ℕ → SimResponse := fun _ => ⟨429, some "2", none⟩

/-- Every request clones successfully. -/
def c5clone : ℕ → Bool := fun _ => true

/-- The event trace of six requests and five sleeps of 2075 ms produced under
`c5server`. -/
def c5trace : List MwEvent :=
  [.request 0, .sleep 2075, .request 1, .sleep 2075, .request 2, .sleep 2075,
   .request 3, .sleep 2075, .request 4, .sleep 2075, .request 5]

/-- A local product whose `regional-pricing` was hand-edited to `false`. -/
def c6prod : Product := ⟨some 7, "p", none, none, true, none, 10, some false⟩

/-- A catalog holding `c6prod` among the one-time products. -/
def c6cat : VCSProducts := ⟨⟨1, none, none, some [litFilter "zz"]⟩, [], [("p", c6prod)]⟩

/-- A two-page server: first page `[1, 2]` with next cursor `"cur"`, second
page `[3]` with no next cursor. -/
def c8server : Option String → Page ℕ := fun p =>
  match p with
  | none => ⟨[1, 2], some "cur"⟩
  | some c => if c = "cur" then ⟨[3], none⟩ else ⟨[], none⟩

/-- A server that returns the empty string as next cursor on the cursorless
request. -/
def c8badServer : Option String → Page ℕ := fun p =>
  match p with
  | none => ⟨[1], some ""⟩
  | some _ => ⟨[2], none⟩

/-- A user name filter whose pattern matches its own replacement output. -/
def c9filter : FilterAction := litFilter "a b"

/-- A user name filter that never matches canonical output. -/
def c9fixFilter : FilterAction := litFilter "xx"

/-! ## Merge lemmas -/

lemma censorGuard_active (ow : Bool) (ex : Option (String × Product)) (p : Product) :
    (censorGuard ow ex p).active = p.active := by
  unfold censorGuard
  split
  · split
    · split_ifs <;> rfl
    · rfl
  · rfl

lemma censorGuard_regional (ow : Bool) (ex : Option (String × Product)) (p : Product) :
    (censorGuard ow ex p).regional_pricing = p.regional_pricing := by
  unfold censorGuard
  split
  · split
    · split_ifs <;> rfl
    · rfl
  · rfl

lemma censorGuard_false_some_description (e : String × Product) (p : Product)
    (h : p.description = e.2.description) :
    (censorGuard false (some e) p).description = e.2.description := by
  unfold censorGuard
  split
  · rename_i e2 heq1 heq2
    obtain rfl : e = e2 := by injection heq2
    split
    · split_ifs <;> first | rfl | exact h
    · exact h
  · rename_i hx
    exact absurd rfl (hx e rfl)

lemma censorGuard_true (ex : Option (String × Product)) (p : Product) :
    censorGuard true ex p = p := by
  cases ex <;> rfl

lemma normalizeRegional_active (p : Product) : (normalizeRegional p).active = p.active := by
  unfold normalizeRegional; split <;> rfl

lemma normalizeRegional_description (p : Product) :
    (normalizeRegional p).description = p.description := by
  unfold normalizeRegional; split <;> rfl

lemma normalizeRegional_ne_some_false (p : Product) :
    (normalizeRegional p).regional_pricing ≠ some false := by
  unfold normalizeRegional
  split
  · simp
  · assumption

lemma mergedProduct_regional_ne_some_false (ow : Bool) (flt : Option (List FilterAction))
    (df : List FilterAction) (ex : Option (String × Product)) (p : Product) :
    (mergedProduct ow flt df ex p).regional_pricing ≠ some false := by
  rw [mergedProduct, censorGuard_regional]
  exact normalizeRegional_ne_some_false _

lemma mem_alInsert {k : String} {p : Product} {key : String} {v : Product}
    {l : List (String × Product)} (h : (k, p) ∈ alInsert key v l) :
    (k, p) ∈ l ∨ p = v := by
  unfold alInsert at h
  split at h
  · rcases List.mem_map.mp h with ⟨e, he, heq⟩
    by_cases hk : e.1 = key
    · rw [if_pos hk, Prod.mk.injEq] at heq
      right
      exact heq.2.symm
    · rw [if_neg hk] at heq
      left
      exact heq ▸ he
  · rcases List.mem_append.mp h with h1 | h1
    · exact Or.inl h1
    · right
      simp at h1
      exact h1.2

lemma mergeOne_mem_regional (ow : Bool) (flt : Option (List FilterAction))
    (df : List FilterAction) (st : VCSProducts) (mp : MultiProduct) (k : String) (p : Product) :
    ((k, p) ∈ (mergeOne ow flt df st mp).gamepasses → p.regional_pricing = some false →
      (k, p) ∈ st.gamepasses)
    ∧ ((k, p) ∈ (mergeOne ow flt df st mp).products → p.regional_pricing = some false →
      (k, p) ∈ st.products) := by
  rcases mp with q | q <;> simp only [mergeOne] <;> refine ⟨fun hmem hrp => ?_, fun hmem hrp => ?_⟩
  · rcases mem_alInsert hmem with h | rfl
    · exact h
    · exact absurd hrp (mergedProduct_regional_ne_some_false _ _ _ _ _)
  · exact hmem
  · exact hmem
  · rcases mem_alInsert hmem with h | rfl
    · exact h
    · exact absurd hrp (mergedProduct_regional_ne_some_false _ _ _ _ _)

lemma foldl_mergeOne_regional (ow : Bool) (flt : Option (List FilterAction))
    (df : List FilterAction) :
    ∀ (remotes : List MultiProduct) (st : VCSProducts) (k : String) (p : Product),
    ((k, p) ∈ (remotes.foldl (mergeOne ow flt df) st).gamepasses →
      p.regional_pricing = some false → (k, p) ∈ st.gamepasses)
    ∧ ((k, p) ∈ (remotes.foldl (mergeOne ow flt df) st).products →
      p.regional_pricing = some false → (k, p) ∈ st.products) := by
  intro remotes
  induction remotes with
  | nil => intro st k p; exact ⟨fun h _ => h, fun h _ => h⟩
  | cons mp rest ih =>
    intro st k p
    constructor
    · intro hmem hrp
      have h2 := (ih (mergeOne ow flt df st mp) k p).1 (by simpa using hmem) hrp
      exact (mergeOne_mem_regional ow flt df st mp k p).1 h2 hrp
    · intro hmem hrp
      have h2 := (ih (mergeOne ow flt df st mp) k p).2 (by simpa using hmem) hrp
      exact (mergeOne_mem_regional ow flt df st mp k p).2 h2 hrp

/-! ## Claim C10: the active flag always comes from the remote record -/

/-- C10: in every download merge, the merged product's active (for-sale) flag
is taken from the remote record — also when the overwrite flag is false and a
matching local product exists — and the remote conversions take it from the
record's `isForSale`; a locally edited active value is always discarded. -/
theorem merge_active_always_remote :
    (∀ (ow : Bool) (flt : Option (List FilterAction)) (df : List FilterAction)
        (ex : Option (String × Product)) (p : Product),
        (mergedProduct ow flt df ex p).active = p.active)
    ∧ (∀ gp : GamePass, (Product.ofGamePass gp).active = gp.is_for_sale)
    ∧ (∀ dp : DevProduct, (Product.ofDevProduct dp).active = dp.is_for_sale) := by
  refine ⟨fun ow flt df ex p => ?_, fun gp => rfl, fun dp => rfl⟩
  rw [mergedProduct, censorGuard_active, normalizeRegional_active]
  rfl

/-! ## Claim C4: the censorship guard and the overwrite flag -/

/-- C4 counterexample: with `overwrite = true`, a censored incoming
description ("###") replaces a differing existing local description
("hello") — the guard does not apply for that overwrite value. -/
theorem censored_description_adopted_with_overwrite :
    ((download true [] c4cat [.GamePass c4remoteP]).gamepasses.map
        fun e => (e.1, e.2.description)) = [("vip", some "###")]
    ∧ c4old.description = some "hello"
    ∧ is_censored "###" = true := by
  refine ⟨by decide, by decide, by decide⟩

/-- C4 (amended): the censorship guard runs only when `overwrite = false`, in
which case the merged description of a matched product is the existing local
description regardless of censoring (non-overwrite merges never adopt the
remote description); with `overwrite = true` the remote description is
adopted unconditionally, censored or not. -/
theorem merge_description_policy (flt : Option (List FilterAction))
    (df : List FilterAction) (e : String × Product) (p : Product) :
    (mergedProduct false flt df (some e) p).description = e.2.description
    ∧ (mergedProduct true flt df (some e) p).description = p.description := by
  constructor
  · rw [mergedProduct]
    exact censorGuard_false_some_description e _ (by rw [normalizeRegional_description]; rfl)
  · rw [mergedProduct, censorGuard_true, normalizeRegional_description]
    rfl

/-! ## Claim C6: regional-pricing normalisation -/

/-- C6 counterexample: a local product with `regional-pricing = false` that no
remote record matches survives a download merge unchanged, so the catalog does
contain a product with `Some(false)` after the merge. -/
theorem regional_false_survives_download :
    (download false [] c6cat []).products = [("p", c6prod)]
    ∧ c6prod.regional_pricing = some false := by
  exact ⟨rfl, rfl⟩

/-- C6 (amended): every product a download merge writes has
`regional_pricing ≠ Some(false)`; any catalog product carrying `Some(false)`
after the merge was already present, unchanged, before it (a local product not
matched by any remote record). -/
theorem download_regional_pricing_normalized (ow : Bool) (df : List FilterAction)
    (st : VCSProducts) (remotes : List MultiProduct) (k : String) (p : Product) :
    ((k, p) ∈ (download ow df st remotes).gamepasses → p.regional_pricing = some false →
      (k, p) ∈ st.gamepasses)
    ∧ ((k, p) ∈ (download ow df st remotes).products → p.regional_pricing = some false →
      (k, p) ∈ st.products) :=
  foldl_mergeOne_regional ow st.metadata.name_filters df remotes st k p

/-- C6 witness: the amended theorem applied to the concrete catalog `c6cat`
with no remote records. -/
theorem download_regional_pricing_witness : ("p", c6prod) ∈ c6cat.products :=
  (download_regional_pricing_normalized false [] c6cat [] "p" c6prod).2
    (by decide) (by decide)

/-! ## Claim C2: the effective-price formula -/

/-- C2: the source computes the discounted price in `f64`, and the result
deviates from the specified exact `floor(price * (1 - discount / 100))`
already at price 90 with a 30% discount: the float evaluation of
`90 * (1.0 - 0.3)` is just below 63, so `get_price` returns 62 while the
specified formula gives 63. -/
theorem get_price_float_deviates_from_spec :
    c2product.price = 90
    ∧ c2product.discount = some 30
    ∧ c2product.get_price = 62
    ∧ spec_effective_price 90 30 = 63 := by
  refine ⟨rfl, rfl, by decide, by decide⟩

/-! ## Claim C3: the diffing title and the discount template -/

/-- C3 counterexample: `c3self` has an active 50% discount and `c3md` carries
the discount template, and `Product::diff` compares the template-formatted
title "SALE 50% VIP" — not the raw name "VIP" — against the remote name, so a
product otherwise in sync yields a diff whose only change is the title.  The
discount template is therefore applied during diffing, not only at upload
time. -/
theorem diff_title_uses_discount_template :
    c3self.has_discount = true
    ∧ c3self.diffTitle (some c3md) = "SALE 50% VIP"
    ∧ c3self.name = "VIP"
    ∧ c3self.diff c3other (some c3md) = Except.ok (some c3diff) := by
  refine ⟨rfl, by decide, rfl, by rfl⟩

/-- C3 (amended): in `diff`, when metadata with a discount template is
supplied and the product's `discount` field is set, the effective title is the
formatted template prepended to `get_title()` (which is the raw name whenever
the discount is active); the title is plain `get_title()` — the
`pfx`-concatenated name when no discount is active and a `pfx` is set — only
when the metadata, the template, or the `discount` field is absent. -/
theorem diffTitle_spec (self : Product) (md : Metadata) :
    (∀ (dv : ℕ) (tpl : String), self.discount = some dv → md.discount_tpl = some tpl →
        self.diffTitle (some md) = dynFormat tpl [dv] ++ " " ++ self.get_title)
    ∧ (self.discount = none → self.diffTitle (some md) = self.get_title)
    ∧ (md.discount_tpl = none → self.diffTitle (some md) = self.get_title)
    ∧ (self.diffTitle none = self.get_title)
    ∧ (self.has_discount = true → self.get_title = self.name)
    ∧ (self.has_discount = false →
        self.get_title = match self.pfx with
          | some px => px ++ " " ++ self.name
          | none => self.name) := by
  refine ⟨?_, ?_, ?_, rfl, ?_, ?_⟩
  · intro dv tpl hd ht
    simp [Product.diffTitle, hd, ht]
  · intro hd
    simp [Product.diffTitle, hd]
  · intro ht
    cases hd : self.discount <;> simp [Product.diffTitle, ht, hd]
  · intro hd
    simp [Product.get_title, hd]
  · intro hd
    simp [Product.get_title, hd]

/-- C3 witness: the amended theorem applied to `c3self` and `c3md`. -/
theorem diffTitle_spec_witness :
    c3self.diffTitle (some c3md) = dynFormat "SALE {}%" [50] ++ " " ++ c3self.get_title :=
  (diffTitle_spec c3self c3md).1 50 "SALE {}%" rfl rfl

/-! ## Claim C1: the diff of a matched pair -/

/-- C1: for a matched pair whose remote description is present, `diff` returns
`Ok` (never panics), returns `none` exactly when all five compared fields
agree (effective title vs remote name, effective description vs remote
description, effective price vs remote price as `u64`, regional-pricing
defaulted to `false` on both sides, active flag), and any returned diff lists
the five fields in the fixed order title, description, price,
regional-pricing, active, with exactly as many `Changed` entries as there are
disagreeing fields — in particular, exactly one when exactly one field
differs. -/
theorem diff_none_iff_fields_agree (self other : Product) (md : Option Metadata)
    (odesc : String) (h : other.description = some odesc) :
    (∃ r, self.diff other md = Except.ok r)
    ∧ (self.diff other md = Except.ok none ↔
        (other.name = self.diffTitle md ∧ odesc = self.description.getD "" ∧
         wrapU64 other.price = self.get_price ∧
         other.regional_pricing.getD false = self.regional_pricing.getD false ∧
         other.active = self.active))
    ∧ (∀ D : ProductDiffs, self.diff other md = Except.ok (some D) →
        D.diffs.map DiffChange.field =
          [DiffField.title, DiffField.description, DiffField.price,
           DiffField.regionalPricing, DiffField.active]
        ∧ (D.diffs.filter DiffChange.isChanged).length =
            (if other.name = self.diffTitle md then 0 else 1) +
            (if odesc = self.description.getD "" then 0 else 1) +
            (if wrapU64 other.price = self.get_price then 0 else 1) +
            (if other.regional_pricing.getD false = self.regional_pricing.getD false
              then 0 else 1) +
            (if other.active = self.active then 0 else 1)) := by
  by_cases h1 : other.name = self.diffTitle md <;>
  by_cases h2 : odesc = self.description.getD "" <;>
  by_cases h3 : wrapU64 other.price = self.get_price <;>
  by_cases h4 : other.regional_pricing.getD false = self.regional_pricing.getD false <;>
  by_cases h5 : other.active = self.active <;>
  simp [Product.diff, h, check_diff, DiffChange.isChanged, DiffChange.field,
    ProductDiff.field, h1, h2, h3, h4, h5]

/-- C1 witness: the characterisation applied to an identical concrete pair,
whose diff is `none`. -/
theorem diff_none_witness : c1self.diff c1other none = Except.ok none :=
  ((diff_none_iff_fields_agree c1self c1other none "d" rfl).2.1).mpr (by decide)

/-! ## Claim C5: rate-limit retry behaviour -/

/-- C5 (amended): with the default of 5 maximum retries, a non-429 first
response is returned at once with no sleep and no retry; under consecutive
429 responses each of the first five causes exactly one sleep of the
header-derived wait (in milliseconds) plus the 75 ms cushion followed by one
retry of the cloned request, and the sixth consecutive 429 — not the fifth —
is returned to the caller, six requests having been issued in total. -/
theorem rate_limit_retry_loop (server : ℕ → SimResponse) (cloneable : ℕ → Bool) :
    ((server 0).status ≠ 429 → handle 5 75 server cloneable = some ([.request 0], server 0))
    ∧ ((∀ i, i ≤ 5 → (server i).status = 429) → (∀ i, cloneable i = true) →
        handle 5 75 server cloneable = some
          ([.request 0, .sleep (retry_wait_from_headers (server 0) * 1000 + 75),
            .request 1, .sleep (retry_wait_from_headers (server 1) * 1000 + 75),
            .request 2, .sleep (retry_wait_from_headers (server 2) * 1000 + 75),
            .request 3, .sleep (retry_wait_from_headers (server 3) * 1000 + 75),
            .request 4, .sleep (retry_wait_from_headers (server 4) * 1000 + 75),
            .request 5], server 5)) := by
  have hr : List.range 6 = [0, 1, 2, 3, 4, 5] := by decide
  constructor
  · intro h0
    simp [handle, hr, handleList, h0]
  · intro h429 hcl
    have h0 := h429 0 (by omega)
    have h1 := h429 1 (by omega)
    have h2 := h429 2 (by omega)
    have h3 := h429 3 (by omega)
    have h4 := h429 4 (by omega)
    have h5 := h429 5 (by omega)
    simp [handle, hr, handleList, h0, h1, h2, h3, h4, h5, hcl]

/-- C5 witness: the amended behaviour on the concrete always-429 server with
`retry-after: 2` — five sleeps of 2075 ms, six requests, the sixth 429
returned. -/
theorem rate_limit_retry_witness :
    handle 5 75 c5server c5clone = some (c5trace, ⟨429, some "2", none⟩) := by
  rw [(rate_limit_retry_loop c5server c5clone).2 (fun i _ => rfl) (fun i => rfl)]
  decide

/-- C5 counterexample: under sustained 429s the loop issues a sixth request
(attempt index 5) and returns the sixth consecutive 429, while the claim says
the fifth consecutive 429 is returned rather than a sixth request being
issued. -/
theorem sixth_request_issued_on_sustained_429 :
    handle 5 75 c5server c5clone = some (c5trace, ⟨429, some "2", none⟩)
    ∧ MwEvent.request 5 ∈ c5trace
    ∧ (c5trace.filter fun e => match e with | .request _ => true | _ => false).length = 6
    ∧ (c5trace.filter fun e => match e with | .sleep _ => true | _ => false).length = 5 := by
  refine ⟨by decide, by decide, by decide, by decide⟩

/-! ## Claim C8: cursor pagination -/

/-- C8 (amended): the paginated fetch issues its first request with no cursor
parameter, carries a non-empty next-cursor string verbatim on the subsequent
request, and accumulates pages in order: a server returning pages `[A, B]`
with a non-empty next cursor and then `[C]` with none yields `[A, B, C]` in
two requests.  (An empty next-cursor string is the one exception: the cursor
parameter is then omitted again, see the counterexample.) -/
theorem pagination_scenario {α : Type} (server : Option String → Page α) (A B C : α)
    (c : String) (hc : c ≠ "") (h1 : server none = ⟨[A, B], some c⟩)
    (h2 : server (some c) = ⟨[C], none⟩) (k : ℕ) :
    fetch_all server (k + 2) = ([none, some c], some [A, B, C]) := by
  simp [fetch_all, fetchAllAux, h1, h2, hc]

/-- C8 witness: the scenario on the concrete two-page server `c8server`. -/
theorem pagination_scenario_witness :
    fetch_all c8server 2 = ([none, some "cur"], some [1, 2, 3]) :=
  pagination_scenario c8server 1 2 3 "cur" (by decide) (by decide) (by decide) 0

/-- C8 counterexample: when the server returns `Some("")` as next cursor, the
subsequent requests omit the cursor parameter instead of carrying the empty
string verbatim — the trace is `[none, none, none]`, not `[none, some ""]` —
and the loop never terminates (fuel runs out with no result). -/
theorem empty_cursor_not_carried_verbatim :
    c8badServer none = ⟨[1], some ""⟩
    ∧ fetch_all c8badServer 3 = ([none, none, none], none) := by
  refine ⟨by decide, by decide⟩

/-! ## Claim C7: ordering of the modification-phase diff set -/

lemma uploadLe_iff (a b : ProductType × ProductDiffs) :
    (uploadCmp a b ≠ Ordering.gt) ↔
      (ptRank a.1 < ptRank b.1 ∨ (a.1 = b.1 ∧ a.2.id ≤ b.2.id)) := by
  rcases a with ⟨ta, da⟩
  rcases b with ⟨tb, db⟩
  cases ta <;> cases tb <;>
    simp only [uploadCmp, ProductType.cmp, natCmp, ptRank] <;>
    first
      | (split_ifs <;> simp_all <;> omega)
      | simp

lemma uploadLe_trans (a b c : ProductType × ProductDiffs)
    (hab : decide (uploadCmp a b ≠ Ordering.gt) = true)
    (hbc : decide (uploadCmp b c ≠ Ordering.gt) = true) :
    decide (uploadCmp a c ≠ Ordering.gt) = true := by
  rw [decide_eq_true_eq, uploadLe_iff] at hab hbc ⊢
  rcases hab with h | ⟨h, h2⟩ <;> rcases hbc with h3 | ⟨h3, h4⟩
  · exact Or.inl (h.trans h3)
  · exact Or.inl (h3 ▸ h)
  · exact Or.inl (h ▸ h3)
  · exact Or.inr ⟨h.trans h3, h2.trans h4⟩

lemma uploadLe_total (a b : ProductType × ProductDiffs) :
    (decide (uploadCmp a b ≠ Ordering.gt) || decide (uploadCmp b a ≠ Ordering.gt)) = true := by
  simp only [Bool.or_eq_true, decide_eq_true_eq, uploadLe_iff]
  rcases a with ⟨ta, da⟩
  rcases b with ⟨tb, db⟩
  cases ta <;> cases tb <;> simp [ptRank] <;> omega

/-- C7: the modification-phase sort produces a permutation of the diff set in
which every one-time (developer) product entry comes before every pass entry,
and entries of the same kind are in ascending id order. -/
theorem upload_diffs_sorted (l : List (ProductType × ProductDiffs)) :
    (sortDiffs l).Perm l
    ∧ List.Pairwise
        (fun a b => ptRank a.1 < ptRank b.1 ∨ (a.1 = b.1 ∧ a.2.id ≤ b.2.id))
        (sortDiffs l) := by
  constructor
  · exact List.mergeSort_perm l _
  · have hs := List.sorted_mergeSort uploadLe_trans uploadLe_total l
    exact hs.imp fun h => (uploadLe_iff _ _).mp (by simpa using h)

/-! ## Claim C9: canonicalisation and idempotence -/

lemma wsOnlySpace_collapseAux (l : List Char) : ∀ b, wsOnlySpace (collapseAux b l) = true := by
  induction l with
  | nil => intro b; rfl
  | cons c rest ih =>
    intro b
    simp only [collapseAux]
    split_ifs with hws hb
    · exact ih true
    · simp only [wsOnlySpace, Bool.and_eq_true]
      exact ⟨by decide, ih true⟩
    · simp only [wsOnlySpace, Bool.and_eq_true]
      refine ⟨?_, ih false⟩
      simp [hws]

lemma headNotWS_collapseAux_true (l : List Char) : headNotWS (collapseAux true l) = true := by
  induction l with
  | nil => rfl
  | cons c rest ih =>
    simp only [collapseAux]
    split_ifs with hws
    · exact ih
    · simp [headNotWS, hws]

lemma noWSrun_tail {c : Char} {l : List Char} (h : noWSrun (c :: l) = true) :
    noWSrun l = true := by
  cases l with
  | nil => rfl
  | cons d ds =>
    simp only [noWSrun, Bool.and_eq_true] at h
    exact h.2

lemma noWSrun_cons {c : Char} {l : List Char} (hl : noWSrun l = true)
    (h : headNotWS l = true ∨ c.isWhitespace = false) : noWSrun (c :: l) = true := by
  cases l with
  | nil => rfl
  | cons d ds =>
    simp only [noWSrun, Bool.and_eq_true]
    refine ⟨?_, hl⟩
    rcases h with h | h
    · simp only [headNotWS] at h
      simp [h]
    · simp [h]

lemma noWSrun_collapseAux (l : List Char) : ∀ b, noWSrun (collapseAux b l) = true := by
  induction l with
  | nil => intro b; rfl
  | cons c rest ih =>
    intro b
    simp only [collapseAux]
    split_ifs with hws hb
    · exact ih true
    · exact noWSrun_cons (ih true) (Or.inl (headNotWS_collapseAux_true rest))
    · cases hcr : collapseAux false rest with
      | nil => rfl
      | cons d ds =>
      · have h2 := ih false
        rw [hcr] at h2
        refine noWSrun_cons h2 (Or.inr ?_)
        simp [hws]

lemma headNotWS_dropWhile (l : List Char) :
    headNotWS (List.dropWhile Char.isWhitespace l) = true := by
  induction l with
  | nil => rfl
  | cons c rest ih =>
    by_cases hws : c.isWhitespace
    · simpa [List.dropWhile, hws] using ih
    · simp [List.dropWhile, hws, headNotWS]

lemma noWSrun_dropWhile {l : List Char} (h : noWSrun l = true) :
    noWSrun (List.dropWhile Char.isWhitespace l) = true := by
  induction l with
  | nil => rfl
  | cons c rest ih =>
    by_cases hws : c.isWhitespace
    · simpa [List.dropWhile, hws] using ih (noWSrun_tail h)
    · simpa [List.dropWhile, hws] using h

lemma wsOnlySpace_tail {c : Char} {l : List Char} (h : wsOnlySpace (c :: l) = true) :
    wsOnlySpace l = true := by
  simp only [wsOnlySpace, Bool.and_eq_true] at h
  exact h.2

lemma wsOnlySpace_dropWhile {l : List Char} (h : wsOnlySpace l = true) :
    wsOnlySpace (List.dropWhile Char.isWhitespace l) = true := by
  induction l with
  | nil => rfl
  | cons c rest ih =>
    by_cases hws : c.isWhitespace
    · simpa [List.dropWhile, hws] using ih (wsOnlySpace_tail h)
    · simpa [List.dropWhile, hws] using h

lemma dropTrailingWS_head {l : List Char} {d : Char} {ds : List Char}
    (h : dropTrailingWS l = d :: ds) : ∃ t, l = d :: t := by
  cases l with
  | nil => simp [dropTrailingWS] at h
  | cons c rest =>
    refine ⟨rest, ?_⟩
    have hc : c = d := by
      simp only [dropTrailingWS] at h
      rcases hr : dropTrailingWS rest with _ | ⟨e, es⟩ <;> rw [hr] at h
      · split_ifs at h with hws
        all_goals first
          | rfl
          | (change [c] = d :: ds at h; injection h with h1 h2; try exact h1)
      · change c :: e :: es = d :: ds at h
        injection h with h1 h2
        try exact h1
    exact congrArg (fun x => x :: rest) hc

lemma wsOnlySpace_dropTrailingWS {l : List Char} (h : wsOnlySpace l = true) :
    wsOnlySpace (dropTrailingWS l) = true := by
  induction l with
  | nil => rfl
  | cons c rest ih =>
    have hc : (!c.isWhitespace || decide (c = ' ')) = true := by
      simp only [wsOnlySpace, Bool.and_eq_true] at h
      exact h.1
    simp only [dropTrailingWS]
    rcases hr : dropTrailingWS rest with _ | ⟨e, es⟩
    · split_ifs with hws
      · rfl
      · rw [show wsOnlySpace [c]
            = ((!c.isWhitespace || decide (c = ' ')) && wsOnlySpace []) from rfl,
          Bool.and_eq_true]
        exact ⟨hc, rfl⟩
    · rw [show wsOnlySpace (c :: e :: es)
          = ((!c.isWhitespace || decide (c = ' ')) && wsOnlySpace (e :: es)) from rfl,
        Bool.and_eq_true]
      have h2 := ih (wsOnlySpace_tail h)
      rw [hr] at h2
      exact ⟨hc, h2⟩

lemma noWSrun_dropTrailingWS {l : List Char} (h : noWSrun l = true) :
    noWSrun (dropTrailingWS l) = true := by
  induction l with
  | nil => rfl
  | cons c rest ih =>
    simp only [dropTrailingWS]
    rcases hr : dropTrailingWS rest with _ | ⟨e, es⟩
    · split_ifs <;> rfl
    · have h2 : noWSrun (e :: es) = true := hr ▸ ih (noWSrun_tail h)
      refine noWSrun_cons h2 ?_
      rcases dropTrailingWS_head hr with ⟨t, rfl⟩
      simp only [noWSrun, Bool.and_eq_true] at h
      by_cases hc : c.isWhitespace
      · left
        have h3 := h.1
        simp only [hc, Bool.true_and, Bool.not_eq_true'] at h3
        simp [headNotWS, h3]
      · right
        simp [hc]

lemma headNotWS_dropTrailingWS {l : List Char} (h : headNotWS l = true) :
    headNotWS (dropTrailingWS l) = true := by
  rcases hr : dropTrailingWS l with _ | ⟨d, ds⟩
  · rfl
  · rcases dropTrailingWS_head hr with ⟨t, rfl⟩
    simpa [headNotWS] using h

lemma lastNotWS_dropTrailingWS (l : List Char) : lastNotWS (dropTrailingWS l) = true := by
  induction l with
  | nil => rfl
  | cons c rest ih =>
    simp only [dropTrailingWS]
    rcases hr : dropTrailingWS rest with _ | ⟨e, es⟩
    · split_ifs with hws
      · rfl
      · simp [lastNotWS, hws]
    · rw [hr] at ih
      simpa [lastNotWS] using ih

lemma dropTrailingWS_eq_self {l : List Char} (h : lastNotWS l = true) :
    dropTrailingWS l = l := by
  induction l with
  | nil => rfl
  | cons c rest ih =>
    cases rest with
    | nil =>
      simp only [lastNotWS, Bool.not_eq_true'] at h
      simp [dropTrailingWS, h]
    | cons d ds =>
      have h2 : lastNotWS (d :: ds) = true := h
      rw [dropTrailingWS, ih h2]

lemma dropWhile_eq_self {l : List Char} (h : headNotWS l = true) :
    List.dropWhile Char.isWhitespace l = l := by
  cases l with
  | nil => rfl
  | cons c rest =>
    simp only [headNotWS, Bool.not_eq_true'] at h
    simp [List.dropWhile, h]

lemma collapseAux_eq_self {l : List Char} (h1 : noWSrun l = true) (h2 : wsOnlySpace l = true) :
    collapseAux false l = l ∧ (headNotWS l = true → collapseAux true l = l) := by
  induction l with
  | nil => exact ⟨rfl, fun _ => rfl⟩
  | cons c rest ih =>
    have hrest := ih (noWSrun_tail h1) (wsOnlySpace_tail h2)
    constructor
    · simp only [collapseAux]
      by_cases hws : c.isWhitespace
      · have hsp : c = ' ' := by
          simp only [wsOnlySpace, Bool.and_eq_true] at h2
          have h3 := h2.1
          simpa [hws] using h3
        have hhead : headNotWS rest = true := by
          cases rest with
          | nil => rfl
          | cons d ds =>
            simp only [noWSrun, Bool.and_eq_true] at h1
            have h4 := h1.1
            simp only [hws, Bool.true_and, Bool.not_eq_true'] at h4
            simp [headNotWS, h4]
        simp [hws, hsp, hrest.2 hhead]
      · simp [hws, hrest.1]
    · intro hh
      simp only [headNotWS, Bool.not_eq_true'] at hh
      simp only [collapseAux, hh]
      simp [hrest.1]

lemma trimCollapseList_idem (l : List Char) :
    trimCollapseList (trimCollapseList l) = trimCollapseList l := by
  have hns : noWSrun (trimCollapseList l) = true :=
    noWSrun_dropTrailingWS (noWSrun_dropWhile (noWSrun_collapseAux l false))
  have hsp : wsOnlySpace (trimCollapseList l) = true :=
    wsOnlySpace_dropTrailingWS (wsOnlySpace_dropWhile (wsOnlySpace_collapseAux l false))
  have hhd : headNotWS (trimCollapseList l) = true :=
    headNotWS_dropTrailingWS (headNotWS_dropWhile _)
  have hlt : lastNotWS (trimCollapseList l) = true := lastNotWS_dropTrailingWS _
  show dropTrailingWS (List.dropWhile Char.isWhitespace
      (collapseAux false (trimCollapseList l))) = trimCollapseList l
  rw [(collapseAux_eq_self hns hsp).1, dropWhile_eq_self hhd, dropTrailingWS_eq_self hlt]

/-- C9 counterexample: with the user filter list `["a b"]` (a plain literal
regex), canonicalising "aa bb" gives "a b", but canonicalising the result
again gives "" — `canonical_name` is not idempotent for every name-filter
configuration. -/
theorem canonical_name_not_idempotent :
    canonical_name (some [c9filter]) [] "aa bb" = "a b"
    ∧ canonical_name (some [c9filter]) [] (canonical_name (some [c9filter]) [] "aa bb") = ""
    ∧ canonical_name (some [c9filter]) [] (canonical_name (some [c9filter]) [] "aa bb")
      ≠ canonical_name (some [c9filter]) [] "aa bb" := by
  refine ⟨by decide, by decide, by decide⟩

/-- C9 (amended): canonicalisation is idempotent whenever the effective filter
pass leaves the first canonical result unchanged (true in particular for
filters that never match their own replacement output); it can fail for a
user filter list whose pattern matches the canonical output, as in the
counterexample. -/
theorem canonical_name_idempotent_of_fixed (filters : Option (List FilterAction))
    (defaults : List FilterAction) (s : String)
    (hfix : applyFilters (effFilters filters defaults) (canonical_name filters defaults s)
      = canonical_name filters defaults s) :
    canonical_name filters defaults (canonical_name filters defaults s)
      = canonical_name filters defaults s := by
  conv_lhs => rw [canonical_name, hfix]
  conv_lhs => rw [canonical_name]
  rw [show ((trimCollapseList (applyFilters (effFilters filters defaults) s).toList).asString).toList
      = trimCollapseList (applyFilters (effFilters filters defaults) s).toList from rfl]
  rw [trimCollapseList_idem]
  rfl

/-- C9 witness: idempotence holds for the concrete filter `["xx"]` on
"a xx b", whose canonical form "a b" is untouched by another filter pass. -/
theorem canonical_name_idempotent_witness :
    canonical_name (some [c9fixFilter]) [] (canonical_name (some [c9fixFilter]) [] "a xx b")
      = canonical_name (some [c9fixFilter]) [] "a xx b" :=
  canonical_name_idempotent_of_fixed (some [c9fixFilter]) [] "a xx b" (by decide)
